import Mathlib

set_option maxRecDepth 10000

/-
Shallow embedding of src/esp32_firmware/src/main.cpp (ESP32 INMP441 audio
recorder firmware).

The firmware is single-threaded.  Its observable interactions are:
  - i2s_read calls, each of which fills the reused 1024-frame int16 buffer
    with some number of bytes and returns an esp_err_t status;
  - Serial writes (text lines, decimal sample lines, raw byte blocks);
  - Serial reads (polling Serial.available / Serial.read on the control
    channel).

We model the environment of one i2s_read call as a `Chunk`: the status flag
(`ok` = the call returned ESP_OK), the int16 frames it deposited in the
buffer (`frames`, so bytes_read = 2 * frames.length), and the control-channel
bytes that arrive at the serial input buffer while that blocking read is in
progress (`arrived`).  A run of a mode consumes a list of Chunks in order;
if the list runs out the real firmware would block forever inside i2s_read,
which the model renders as `none`.
-/

namespace Fw

/-- Sample rate configured for the I2S peripheral (main.cpp line 11). -/
def I2S_SAMPLE_RATE : Nat := 16000

/-- Duration of one recording in seconds (main.cpp line 16). -/
def RECORD_DURATION_SECONDS : Nat := 5

/-- Byte budget of one recording session:
sample_rate * duration_seconds * sizeof(int16_t) (main.cpp line 17). -/
def RECORD_BUFFER_SIZE : Nat := I2S_SAMPLE_RATE * RECORD_DURATION_SECONDS * 2

/-- Number of int16 frames in the reused i2s_buffer (main.cpp line 20). -/
def I2S_BUFFER_SIZE : Nat := 1024

/-- Size in bytes of the i2s_buffer, i.e. sizeof(i2s_buffer): the byte count
requested from every i2s_read call, hence an upper bound on bytes_read. -/
def I2S_BUFFER_BYTES : Nat := I2S_BUFFER_SIZE * 2

/-- Success sentinel of the ESP-IDF status type (ESP_OK). -/
def ESP_OK : Int := 0

/-- Environment of one i2s_read call: whether it returned ESP_OK, the int16
frames it wrote into the buffer, and the control-channel bytes that arrived
at the serial input while the call was blocking. -/
structure Chunk where
  ok : Bool
  frames : List Int
  arrived : List Nat
deriving DecidableEq

/-- One observable output emitted on the serial transport. -/
inductive Out where
  | line (s : String)
  | sample (v : Int)
  | raw (n : Nat)
  | diag (code : Int)
deriving DecidableEq

/-- Result of a completed record_audio run: the accumulated
total_bytes_read, the outputs emitted, the control-channel input buffer on
return, and the unconsumed remainder of the chunk stream. -/
structure RecRes where
  total : Nat
  outs : List Out
  inbuf : List Nat
  rest : List Chunk
deriving DecidableEq

/-- Result of the acquisition loop of a continuous mode: number of loop
iterations (acquisition blocks) executed, outputs emitted, and the
unconsumed remainder of the chunk stream. -/
structure ContRes where
  blocks : Nat
  outs : List Out
  rest : List Chunk
deriving DecidableEq

/-- Result of a completed continuous-mode call (banner and status lines
included, control buffer drained on exit). -/
structure ModeRes where
  blocks : Nat
  outs : List Out
  inbuf : List Nat
  rest : List Chunk
deriving DecidableEq

/-- Text printed at the start of record_audio (main.cpp line 66). -/
def recordBanner : String := "Recording..."

/-- Text printed at the end of record_audio (main.cpp line 81). -/
def recordFinished : String := "Recording finished."

/-- The while loop of record_audio (main.cpp lines 71-79): loop while
total_bytes_read < RECORD_BUFFER_SIZE; on each iteration i2s_read fills the
buffer; if the result is ESP_OK and bytes_read_in_chunk > 0, the whole chunk
is written to Serial and counted.  The control-channel input buffer `buf` is
never read; bytes arriving during a read are appended to it. -/
def recordGo : Nat → List Nat → List Chunk → Option RecRes
  | total, buf, [] =>
    if RECORD_BUFFER_SIZE ≤ total then some ⟨total, [], buf, []⟩ else none
  | total, buf, c :: cs =>
    if RECORD_BUFFER_SIZE ≤ total then some ⟨total, [], buf, c :: cs⟩
    else if c.ok ∧ 0 < c.frames.length then
      match recordGo (total + 2 * c.frames.length) (buf ++ c.arrived) cs with
      | none => none
      | some r => some ⟨r.total, Out.raw (2 * c.frames.length) :: r.outs, r.inbuf, r.rest⟩
    else recordGo total (buf ++ c.arrived) cs

/-- record_audio (main.cpp lines 65-82): banner line, acquisition loop,
closing line.  Returns none when the chunk stream is exhausted before the
byte budget is met (the real firmware would block inside i2s_read). -/
def record_audio (chunks : List Chunk) (inbuf : List Nat) : Option RecRes :=
  match recordGo 0 inbuf chunks with
  | none => none
  | some r =>
    some ⟨r.total, Out.line recordBanner :: r.outs ++ [Out.line recordFinished], r.inbuf, r.rest⟩

/-- Per-chunk output of the print_samples_continuously loop body (main.cpp
lines 94-98): if the read succeeded and produced bytes, every int16 frame in
the buffer is printed as its own decimal line. -/
def emitPrint (c : Chunk) : List Out :=
  if c.ok ∧ 0 < c.frames.length then c.frames.map Out.sample else []

/-- Per-chunk output of the stream_audio_continuously loop body (main.cpp
lines 118-121): if the read succeeded and produced bytes, the bytes_read raw
bytes of the buffer are forwarded unchanged. -/
def emitStream (c : Chunk) : List Out :=
  if c.ok ∧ 0 < c.frames.length then [Out.raw (2 * c.frames.length)] else []

/-- The while loop shared by the two continuous modes (main.cpp lines 90-100
and 114-122): loop while Serial.available() == 0; each iteration performs one
i2s_read and emits that chunk's outputs; bytes arriving during the read are
in the buffer at the next check.  Exits as soon as the buffer is non-empty,
leaving the remaining chunk stream unconsumed. -/
def contGo (emit : Chunk → List Out) : List Chunk → List Nat → Option ContRes
  | chunks, _ :: _ => some ⟨0, [], chunks⟩
  | [], [] => none
  | c :: cs, [] =>
    match contGo emit cs c.arrived with
    | none => none
    | some r => some ⟨r.blocks + 1, emit c ++ r.outs, r.rest⟩

/-- Banner of print_samples_continuously (main.cpp line 85). -/
def printBanner : String := "Starting continuous sample printing. Send any character to stop."

/-- Stop line of print_samples_continuously (main.cpp line 103). -/
def printStopped : String := "Stopped continuous printing."

/-- Menu line of print_samples_continuously (main.cpp line 104). -/
def printMenu : String := "Send 'r' to record or 'd' to print samples."

/-- Banner of stream_audio_continuously (main.cpp line 109). -/
def streamBanner : String := "Starting live audio stream. Stop the Python script to exit."

/-- Stop line of stream_audio_continuously (main.cpp line 125). -/
def streamStopped : String := "Stopped live audio stream."

/-- Menu line of stream_audio_continuously (main.cpp line 126). -/
def streamMenu : String := "Send 'r' to record, 'd' to print samples, or 'l' to stream."

/-- print_samples_continuously (main.cpp lines 84-105): banner, discard all
buffered control bytes, run the acquisition loop until a control byte is
available, drain the control buffer again, print the stop and menu lines. -/
def print_samples_continuously (chunks : List Chunk) (inbuf : List Nat) : Option ModeRes :=
  match contGo emitPrint chunks [] with
  | none => none
  | some r =>
    some ⟨r.blocks, Out.line printBanner :: r.outs ++ [Out.line printStopped, Out.line printMenu],
      [], r.rest⟩

/-- stream_audio_continuously (main.cpp lines 108-127): same
discard-loop-drain shape as print_samples_continuously, forwarding raw bytes
instead of printing decoded samples. -/
def stream_audio_continuously (chunks : List Chunk) (inbuf : List Nat) : Option ModeRes :=
  match contGo emitStream chunks [] with
  | none => none
  | some r =>
    some ⟨r.blocks, Out.line streamBanner :: r.outs ++ [Out.line streamStopped, Out.line streamMenu],
      [], r.rest⟩

/-- System state between iterations of loop(): the control-channel input
buffer and the remaining i2s chunk stream. -/
structure SysState where
  inbuf : List Nat
  chunks : List Chunk
deriving DecidableEq

/-- One iteration of loop() (main.cpp lines 129-141): if a byte is
available it is consumed; the bytes r, d, l (114, 100, 108) dispatch their
mode, any other byte is silently ignored. -/
def loopStep (s : SysState) : Option (SysState × List Out) :=
  match s.inbuf with
  | [] => some (s, [])
  | cmd :: rest =>
    if cmd = 114 then
      match record_audio s.chunks rest with
      | none => none
      | some r => some (⟨r.inbuf, r.rest⟩, r.outs)
    else if cmd = 100 then
      match print_samples_continuously s.chunks rest with
      | none => none
      | some r => some (⟨r.inbuf, r.rest⟩, r.outs)
    else if cmd = 108 then
      match stream_audio_continuously s.chunks rest with
      | none => none
      | some r => some (⟨r.inbuf, r.rest⟩, r.outs)
    else some (⟨rest, s.chunks⟩, [])

/-- Run n iterations of loop(), concatenating the outputs. -/
def loopRun : Nat → SysState → Option (SysState × List Out)
  | 0, s => some (s, [])
  | n + 1, s =>
    match loopStep s with
    | none => none
    | some (s1, o1) =>
      match loopRun n s1 with
      | none => none
      | some (s2, o2) => some (s2, o1 ++ o2)

/-- Banner lines printed at the top of setup() (main.cpp lines 25-26). -/
def setupBanner : List Out :=
  [Out.line "--- INMP441 Audio Recorder ---",
   Out.line "Send 'r' to start a 5-second recording."]

/-- setup() (main.cpp lines 23-63): banner lines, then i2s_driver_install and
i2s_set_pin.  A non-ESP_OK status from either prints one diagnostic and
enters `while (true);` — modelled by the Bool component: false means the
firmware is halted and loop() never runs. -/
def setupModel (installErr setPinErr : Int) : List Out × Bool :=
  if installErr ≠ ESP_OK then (setupBanner ++ [Out.diag installErr], false)
  else if setPinErr ≠ ESP_OK then (setupBanner ++ [Out.diag setPinErr], false)
  else (setupBanner ++ [Out.line "I2S driver installed. Ready to record."], true)

/-- Whole-firmware run: setup followed, when setup succeeded, by `steps`
iterations of loop().  When setup failed the state is returned untouched and
no loop iteration ever runs. -/
def firmwareRun (installErr setPinErr : Int) (steps : Nat) (s : SysState) :
    Option (List Out × SysState) :=
  match setupModel installErr setPinErr with
  | (outs, false) => some (outs, s)
  | (outs, true) =>
    match loopRun steps s with
    | none => none
    | some (s2, o2) => some (outs ++ o2, s2)

/-- Number of diagnostic messages in an output trace. -/
def diagCount (outs : List Out) : Nat :=
  outs.countP fun o => match o with | Out.diag _ => true | _ => false

/-- Whether an output is audio-mode payload (raw bytes or a printed sample)
rather than status text. -/
def isModeOut : Out → Bool
  | Out.raw _ => true
  | Out.sample _ => true
  | _ => false

/-- Modelled from the spec (section 4.2): `decode(frame) -> DecodedSample` is
an arithmetic (sign-preserving) right shift of the raw frame by the
configured shift amount, i.e. floor division by 2 ^ shift.  The repository
contains only the 16-bit build, where the shift amount is 0 and
print_samples_continuously prints the raw frame itself; this definition is
the generic spec-side formula it is compared against. -/
def decode_spec (shift : Nat) (v : Int) : Int := Int.fdiv v (2 ^ shift)

/-- Shift amount of the configured 16-bit build (main.cpp line 12 selects
I2S_BITS_PER_SAMPLE_16BIT; the physical width equals the logical width, so
no low bits are discarded). -/
def SHIFT_AMOUNT : Nat := 0

/-- Effective number of bytes a chunk contributes to total_bytes_read in
record_audio: its byte count when the read succeeded with data, 0 otherwise. -/
def effBytes (c : Chunk) : Nat :=
  if c.ok ∧ 0 < c.frames.length then 2 * c.frames.length else 0

/-- The part of a chunk that the record_audio byte count can depend on:
status flag and frame count. -/
def sizeKey (c : Chunk) : Bool × Nat := (c.ok, c.frames.length)

/-- A completed recording loop always accumulated at least the byte budget:
the loop condition total_bytes_read < RECORD_BUFFER_SIZE failed on exit. -/
theorem recordGo_budget_le :
    ∀ (chunks : List Chunk) (total : Nat) (buf : List Nat) (r : RecRes),
      recordGo total buf chunks = some r → RECORD_BUFFER_SIZE ≤ r.total := by
  intro chunks
  induction chunks with
  | nil =>
    intro total buf r h
    simp only [recordGo] at h
    split at h
    · simp only [Option.some.injEq] at h
      subst h
      assumption
    · exact absurd h (by simp)
  | cons c cs ih =>
    intro total buf r h
    simp only [recordGo] at h
    split at h
    · simp only [Option.some.injEq] at h
      subst h
      assumption
    · split at h
      · cases hrec : recordGo (total + 2 * c.frames.length) (buf ++ c.arrived) cs with
        | none => rw [hrec] at h; cases h
        | some r0 =>
          rw [hrec] at h
          simp only [Option.some.injEq] at h
          subst h
          simpa using ih _ _ _ hrec
      · exact ih _ _ _ h

/-- A completed recording loop overshoots the byte budget by strictly less
than one full i2s_buffer, provided every chunk fits in the buffer (which the
i2s_read call guarantees, being asked for sizeof(i2s_buffer) bytes). -/
theorem recordGo_total_lt :
    ∀ (chunks : List Chunk) (total : Nat) (buf : List Nat) (r : RecRes),
      (∀ c ∈ chunks, 2 * c.frames.length ≤ I2S_BUFFER_BYTES) →
      total < RECORD_BUFFER_SIZE + I2S_BUFFER_BYTES →
      recordGo total buf chunks = some r →
      r.total < RECORD_BUFFER_SIZE + I2S_BUFFER_BYTES := by
  intro chunks
  induction chunks with
  | nil =>
    intro total buf r _ hlt h
    simp only [recordGo] at h
    split at h
    · simp only [Option.some.injEq] at h
      subst h
      exact hlt
    · exact absurd h (by simp)
  | cons c cs ih =>
    intro total buf r hsz hlt h
    simp only [recordGo] at h
    split at h
    · simp only [Option.some.injEq] at h
      subst h
      exact hlt
    · rename_i hnotle
      have hlt2 : total < RECORD_BUFFER_SIZE := by omega
      have hc : 2 * c.frames.length ≤ I2S_BUFFER_BYTES := hsz c (by simp)
      have hcs : ∀ x ∈ cs, 2 * x.frames.length ≤ I2S_BUFFER_BYTES := by
        intro x hx; exact hsz x (by simp [hx])
      split at h
      · cases hrec : recordGo (total + 2 * c.frames.length) (buf ++ c.arrived) cs with
        | none => rw [hrec] at h; cases h
        | some r0 =>
          rw [hrec] at h
          simp only [Option.some.injEq] at h
          subst h
          simpa using ih _ _ _ hcs (by omega) hrec
      · exact ih _ _ _ hcs hlt h

/-- If the cumulative effective byte counts of a prefix of the chunk stream
land exactly on the byte budget, the recording loop stops there with exactly
the budget. -/
theorem recordGo_exact :
    ∀ (pfx : List Chunk) (total : Nat) (buf : List Nat) (sfx : List Chunk) (r : RecRes),
      total + (pfx.map effBytes).sum = RECORD_BUFFER_SIZE →
      recordGo total buf (pfx ++ sfx) = some r → r.total = RECORD_BUFFER_SIZE := by
  intro pfx
  induction pfx with
  | nil =>
    intro total buf sfx r hsum h
    have htot : total = RECORD_BUFFER_SIZE := by simpa using hsum
    subst htot
    cases sfx with
    | nil =>
      simp only [List.nil_append, recordGo, le_refl, if_pos] at h
      simp only [Option.some.injEq] at h
      subst h
      rfl
    | cons d ds =>
      simp only [List.nil_append, recordGo, le_refl, if_pos] at h
      simp only [Option.some.injEq] at h
      subst h
      rfl
  | cons c pfx ih =>
    intro total buf sfx r hsum h
    simp only [List.map_cons, List.sum_cons] at hsum
    simp only [List.cons_append, recordGo, List.append_eq] at h
    split at h
    · rename_i hle
      have htot : total = RECORD_BUFFER_SIZE := by
        have : total ≤ RECORD_BUFFER_SIZE := by omega
        omega
      simp only [Option.some.injEq] at h
      subst h
      exact htot
    · split at h
      · rename_i hgood
        have heff : effBytes c = 2 * c.frames.length := by
          simp [effBytes, hgood]
        cases hrec : recordGo (total + 2 * c.frames.length) (buf ++ c.arrived) (pfx ++ sfx) with
        | none => rw [hrec] at h; cases h
        | some r0 =>
          rw [hrec] at h
          simp only [Option.some.injEq] at h
          subst h
          simpa using ih _ _ _ _ (by omega) hrec
      · rename_i hbad
        have heff : effBytes c = 0 := by
          simp [effBytes, hbad]
        exact ih _ _ _ _ (by omega) h

/-- Structure of a completed recording loop: the stream splits into the
consumed chunks followed by the untouched remainder; the control buffer on
return is the initial buffer followed by every byte that arrived during the
consumed reads, in order; and the loop behaves identically for any initial
control buffer. -/
theorem recordGo_shape :
    ∀ (chunks : List Chunk) (total : Nat) (buf : List Nat) (r : RecRes),
      recordGo total buf chunks = some r →
      ∃ consumed : List Chunk, chunks = consumed ++ r.rest ∧
        r.inbuf = buf ++ (consumed.map Chunk.arrived).flatten ∧
        ∀ buf' : List Nat, recordGo total buf' chunks =
          some ⟨r.total, r.outs, buf' ++ (consumed.map Chunk.arrived).flatten, r.rest⟩ := by
  intro chunks
  induction chunks with
  | nil =>
    intro total buf r h
    simp only [recordGo] at h
    split at h
    · simp only [Option.some.injEq] at h
      subst h
      refine ⟨[], by simp, by simp, ?_⟩
      intro buf'
      simp only [recordGo]
      rw [if_pos (by assumption)]
      simp
    · exact absurd h (by simp)
  | cons c cs ih =>
    intro total buf r h
    simp only [recordGo] at h
    split at h
    · simp only [Option.some.injEq] at h
      subst h
      refine ⟨[], by simp, by simp, ?_⟩
      intro buf'
      simp only [recordGo]
      rw [if_pos (by assumption)]
      simp
    · rename_i hnotle
      split at h
      · rename_i hgood
        cases hrec : recordGo (total + 2 * c.frames.length) (buf ++ c.arrived) cs with
        | none => rw [hrec] at h; cases h
        | some r0 =>
          rw [hrec] at h
          simp only [Option.some.injEq] at h
          subst h
          obtain ⟨consumed, hsplit, hin, hall⟩ := ih _ _ _ hrec
          refine ⟨c :: consumed, by simpa using hsplit, ?_, ?_⟩
          · simpa [List.append_assoc] using hin
          · intro buf'
            simp only [recordGo]
            rw [if_neg hnotle, if_pos hgood, hall (buf' ++ c.arrived)]
            simp [List.append_assoc]
      · rename_i hbad
        obtain ⟨consumed, hsplit, hin, hall⟩ := ih _ _ _ h
        refine ⟨c :: consumed, by simpa using hsplit, ?_, ?_⟩
        · simpa [List.append_assoc] using hin
        · intro buf'
          simp only [recordGo]
          rw [if_neg hnotle, if_neg hbad, hall (buf' ++ c.arrived)]
          simp [List.append_assoc]

/-- The byte total of a recording run depends only on the status flags and
frame counts of the chunk stream, never on the control buffer or the frame
values. -/
theorem recordGo_total_congr :
    ∀ (ch1 ch2 : List Chunk) (total : Nat) (b1 b2 : List Nat),
      ch1.map sizeKey = ch2.map sizeKey →
      (recordGo total b1 ch1).map RecRes.total = (recordGo total b2 ch2).map RecRes.total := by
  intro ch1
  induction ch1 with
  | nil =>
    intro ch2 total b1 b2 hmap
    have h2 : ch2 = [] := by
      cases ch2 with
      | nil => rfl
      | cons d ds => simp [sizeKey] at hmap
    subst h2
    simp only [recordGo]
    by_cases hle : RECORD_BUFFER_SIZE ≤ total
    · simp [hle]
    · simp [hle]
  | cons c cs ih =>
    intro ch2 total b1 b2 hmap
    cases ch2 with
    | nil => simp [sizeKey] at hmap
    | cons d ds =>
      simp only [List.map_cons, List.cons.injEq] at hmap
      obtain ⟨hkey, htail⟩ := hmap
      have hok : c.ok = d.ok := congrArg Prod.fst hkey
      have hlen : c.frames.length = d.frames.length := congrArg Prod.snd hkey
      simp only [recordGo]
      by_cases hle : RECORD_BUFFER_SIZE ≤ total
      · rw [if_pos hle, if_pos hle]
        rfl
      · rw [if_neg hle, if_neg hle]
        by_cases hgood : c.ok ∧ 0 < c.frames.length
        · have hgood2 : d.ok ∧ 0 < d.frames.length := by
            constructor
            · rw [← hok]; exact hgood.1
            · rw [← hlen]; exact hgood.2
          rw [if_pos hgood, if_pos hgood2, ← hlen]
          have := ih ds (total + 2 * c.frames.length) (b1 ++ c.arrived) (b2 ++ d.arrived) htail
          cases hr1 : recordGo (total + 2 * c.frames.length) (b1 ++ c.arrived) cs with
          | none =>
            cases hr2 : recordGo (total + 2 * c.frames.length) (b2 ++ d.arrived) ds with
            | none => rfl
            | some r2 => rw [hr1, hr2] at this; simp at this
          | some r1 =>
            cases hr2 : recordGo (total + 2 * c.frames.length) (b2 ++ d.arrived) ds with
            | none => rw [hr1, hr2] at this; simp at this
            | some r2 =>
              rw [hr1, hr2] at this
              simp only [Option.map_some'] at this
              simp [this]
        · have hgood2 : ¬(d.ok ∧ 0 < d.frames.length) := by
            rw [← hok, ← hlen]; exact hgood
          rw [if_neg hgood, if_neg hgood2]
          exact ih ds total (b1 ++ c.arrived) (b2 ++ d.arrived) htail

/-- Stop-signal property of the shared continuous-mode loop: if any control
byte arrives during the read of chunk k, the loop exits after at most k + 1
iterations (the in-flight block completes, then the top-of-loop check sees
the byte). -/
theorem contGo_stop (emit : Chunk → List Out) :
    ∀ (chunks : List Chunk) (k : Nat) (hk : k < chunks.length),
      (chunks.get ⟨k, hk⟩).arrived ≠ [] →
      ∃ r : ContRes, contGo emit chunks [] = some r ∧ r.blocks ≤ k + 1 := by
  intro chunks
  induction chunks with
  | nil => intro k hk; simp at hk
  | cons c cs ih =>
    intro k hk ha
    match k with
    | 0 =>
      have hc : c.arrived ≠ [] := ha
      cases harr : c.arrived with
      | nil => exact absurd harr hc
      | cons b bs =>
        refine ⟨⟨1, emit c ++ [], cs⟩, ?_, le_refl 1⟩
        simp [contGo, harr]
    | k' + 1 =>
      cases harr : c.arrived with
      | cons b bs =>
        refine ⟨⟨1, emit c ++ [], cs⟩, ?_, by show 1 ≤ k' + 1 + 1; omega⟩
        simp [contGo, harr]
      | nil =>
        have hk' : k' < cs.length := by simpa using hk
        have ha' : (cs.get ⟨k', hk'⟩).arrived ≠ [] := by
          have hgt : (c :: cs).get ⟨k' + 1, hk⟩ = cs.get ⟨k', hk'⟩ := rfl
          rw [hgt] at ha
          exact ha
        obtain ⟨r, hr, hb⟩ := ih k' hk' ha'
        refine ⟨⟨r.blocks + 1, emit c ++ r.outs, r.rest⟩, ?_,
          by show r.blocks + 1 ≤ k' + 1 + 1; omega⟩
        simp [contGo, harr, hr]

/-- A successful full-size read: i2s_read delivered all 1024 frames it was
asked for (2048 bytes), with no control bytes arriving meanwhile. -/
def chunkFull : Chunk := ⟨true, List.replicate 1024 0, []⟩

/-- A successful 1000-frame read (2000 bytes): 80 of these sum to exactly
the 160000-byte budget. -/
def chunkEven : Chunk := ⟨true, List.replicate 1000 0, []⟩

/-- A successful full-size read during which the control byte 100 arrives. -/
def chunkNotify : Chunk := ⟨true, List.replicate 1024 0, [100]⟩

/-- Chunk stream for two back-to-back recordings: the first session sees
full 2048-byte blocks, the second sees 2000-byte blocks. -/
def c7Chunks : List Chunk := List.replicate 79 chunkFull ++ List.replicate 80 chunkEven

/-- Result of a recording fed 2000-byte blocks: exactly the budget. -/
def recResEven : RecRes :=
  ⟨160000, Out.line recordBanner :: List.replicate 80 (Out.raw 2000) ++ [Out.line recordFinished],
    [], []⟩

/-- Result of the same 2000-byte-block recording entered with the byte 7
already buffered on the control channel. -/
def recResEvenBuf : RecRes :=
  ⟨160000, Out.line recordBanner :: List.replicate 80 (Out.raw 2000) ++ [Out.line recordFinished],
    [7], []⟩

/-- Result of a recording fed full 2048-byte blocks: 161792 bytes. -/
def recResFull : RecRes :=
  ⟨161792, Out.line recordBanner :: List.replicate 79 (Out.raw 2048) ++ [Out.line recordFinished],
    [], []⟩

/-- Result of a recording fed full blocks while the control byte 100 arrives
during every read: the 79 arrived bytes are all still buffered on return. -/
def recResNotify : RecRes :=
  ⟨161792, Out.line recordBanner :: List.replicate 79 (Out.raw 2048) ++ [Out.line recordFinished],
    List.replicate 79 100, []⟩

/-- Tiny recording-loop run for the C8 witness: one 2-byte read starting one
byte short of the budget. -/
def recResTiny : RecRes := ⟨160001, [Out.raw 2], [5, 2], []⟩

/-- Claim C1 is false as stated: when the Acquisition Source delivers full
2048-byte blocks — the very size record_audio requests from i2s_read — one
Recording session forwards 161792 raw bytes to the Output Sink, not
sample_rate * duration_seconds * bytes_per_sample = 160000. -/
theorem c1_exact_byte_count_cex :
    chunkFull.ok = true ∧ 2 * chunkFull.frames.length = I2S_BUFFER_BYTES ∧
    (record_audio (List.replicate 79 chunkFull) []).map RecRes.total = some 161792 ∧
    (161792 : Nat) ≠ RECORD_BUFFER_SIZE := by
  refine ⟨rfl, by decide, by decide, by decide⟩

/-- Claim C1 (amended): for every way the Acquisition Source partitions the
data into blocks of positive size at most the 2048-byte acquisition buffer,
the total forwarded to the Output Sink is at least 160000 bytes and less
than 160000 + 2048 bytes; it equals exactly 160000 precisely when the
cumulative successful block sizes hit the budget on a block boundary (for
example 80 blocks of 2000 bytes). -/
theorem c1_record_total_amended (pfx sfx : List Chunk) (buf : List Nat) (r : RecRes)
    (hsz : ∀ c ∈ pfx ++ sfx, 2 * c.frames.length ≤ I2S_BUFFER_BYTES)
    (h : record_audio (pfx ++ sfx) buf = some r) :
    (RECORD_BUFFER_SIZE ≤ r.total ∧ r.total < RECORD_BUFFER_SIZE + I2S_BUFFER_BYTES) ∧
    ((pfx.map effBytes).sum = RECORD_BUFFER_SIZE → r.total = RECORD_BUFFER_SIZE) := by
  unfold record_audio at h
  cases hrec : recordGo 0 buf (pfx ++ sfx) with
  | none => rw [hrec] at h; cases h
  | some r0 =>
    rw [hrec] at h
    simp only [Option.some.injEq] at h
    subst h
    refine ⟨⟨?_, ?_⟩, ?_⟩
    · simpa using recordGo_budget_le _ _ _ _ hrec
    · simpa using recordGo_total_lt _ _ _ _ hsz (by decide) hrec
    · intro hx
      simpa using recordGo_exact pfx 0 buf sfx r0 (by simpa using hx) hrec

/-- Witness for the amended C1 at a concrete partition: 80 blocks of 2000
bytes reach the budget exactly. -/
theorem c1_record_total_amended_witness :
    (RECORD_BUFFER_SIZE ≤ recResEven.total ∧
      recResEven.total < RECORD_BUFFER_SIZE + I2S_BUFFER_BYTES) ∧
    (((List.replicate 80 chunkEven).map effBytes).sum = RECORD_BUFFER_SIZE →
      recResEven.total = RECORD_BUFFER_SIZE) :=
  c1_record_total_amended (List.replicate 80 chunkEven) [] [] recResEven (by decide) (by decide)

/-- Claim C2: in the configured 16-bit build the shift amount is 0, the
decoded value printed for every representable frame (including the minimum
negative value) equals the raw signed 16-bit frame, decode is the
arithmetic (floor, sign-preserving) right shift by SHIFT_AMOUNT, and
negative samples stay negative. -/
theorem c2_decode_is_arithmetic_shift (v : Int) (hlo : -(2 ^ 15) ≤ v) (hhi : v < 2 ^ 15) :
    decode_spec SHIFT_AMOUNT v = v ∧
    emitPrint ⟨true, [v], []⟩ = [Out.sample (decode_spec SHIFT_AMOUNT v)] ∧
    (v < 0 → decode_spec SHIFT_AMOUNT v < 0) ∧
    print_samples_continuously [⟨true, [v], [0]⟩] [] =
      some ⟨1, [Out.line printBanner, Out.sample (decode_spec SHIFT_AMOUNT v),
        Out.line printStopped, Out.line printMenu], [], []⟩ := by
  have hid : decode_spec SHIFT_AMOUNT v = v := by
    simp [decode_spec, SHIFT_AMOUNT, Int.fdiv_one]
  refine ⟨hid, ?_, ?_, ?_⟩
  · simp [emitPrint, hid]
  · intro hneg; rw [hid]; exact hneg
  · simp [print_samples_continuously, contGo, emitPrint, hid]

/-- Witness for C2 at the minimum representable 16-bit frame value. -/
theorem c2_decode_is_arithmetic_shift_witness :
    decode_spec SHIFT_AMOUNT (-(2 ^ 15)) = -(2 ^ 15) ∧
    emitPrint ⟨true, [-(2 ^ 15)], []⟩ = [Out.sample (decode_spec SHIFT_AMOUNT (-(2 ^ 15)))] ∧
    ((-(2 ^ 15) : Int) < 0 → decode_spec SHIFT_AMOUNT (-(2 ^ 15)) < 0) ∧
    print_samples_continuously [⟨true, [-(2 ^ 15)], [0]⟩] [] =
      some ⟨1, [Out.line printBanner, Out.sample (decode_spec SHIFT_AMOUNT (-(2 ^ 15))),
        Out.line printStopped, Out.line printMenu], [], []⟩ :=
  c2_decode_is_arithmetic_shift (-(2 ^ 15)) (by decide) (by decide)

/-- Claim C3: in both continuous modes, once a control byte becomes
available — here, arriving during the read of chunk k — the loop terminates
after at most one further in-flight block (at most k + 1 blocks in total)
and returns with the control buffer drained, handing control back to Idle. -/
theorem c3_stop_within_one_block (chunks : List Chunk) (k : Nat) (hk : k < chunks.length)
    (ha : (chunks.get ⟨k, hk⟩).arrived ≠ []) (buf : List Nat) :
    (∃ r : ModeRes, print_samples_continuously chunks buf = some r ∧
      r.blocks ≤ k + 1 ∧ r.inbuf = []) ∧
    (∃ r : ModeRes, stream_audio_continuously chunks buf = some r ∧
      r.blocks ≤ k + 1 ∧ r.inbuf = []) := by
  obtain ⟨r1, h1, hb1⟩ := contGo_stop emitPrint chunks k hk ha
  obtain ⟨r2, h2, hb2⟩ := contGo_stop emitStream chunks k hk ha
  constructor
  · refine ⟨⟨r1.blocks, Out.line printBanner :: r1.outs ++
      [Out.line printStopped, Out.line printMenu], [], r1.rest⟩, ?_, hb1, rfl⟩
    simp [print_samples_continuously, h1]
  · refine ⟨⟨r2.blocks, Out.line streamBanner :: r2.outs ++
      [Out.line streamStopped, Out.line streamMenu], [], r2.rest⟩, ?_, hb2, rfl⟩
    simp [stream_audio_continuously, h2]

/-- Chunk stream for the C3 witness: a byte arrives during the first read. -/
def c3wChunks : List Chunk := [⟨true, [7], [0]⟩, ⟨true, [8], []⟩]

/-- Witness for C3: the byte arriving during chunk 0 stops both modes after
at most one block. -/
theorem c3_stop_within_one_block_witness :
    (∃ r : ModeRes, print_samples_continuously c3wChunks [5] = some r ∧
      r.blocks ≤ 0 + 1 ∧ r.inbuf = []) ∧
    (∃ r : ModeRes, stream_audio_continuously c3wChunks [5] = some r ∧
      r.blocks ≤ 0 + 1 ∧ r.inbuf = []) :=
  c3_stop_within_one_block c3wChunks 0 (by decide) (by decide) [5]

/-- Claim C4: entering a continuous mode discards anything buffered on the
control channel (the run is identical for every initial buffer); on stop the
control channel is drained (empty buffer on return), the status line is
emitted, and the dispatcher returns the system to Idle with an empty
buffer. -/
theorem c4_discard_then_drain_status (chunks : List Chunk) (buf buf2 : List Nat) (r r' : ModeRes)
    (hp : print_samples_continuously chunks buf = some r)
    (hs : stream_audio_continuously chunks buf = some r') :
    print_samples_continuously chunks buf2 = some r ∧
    stream_audio_continuously chunks buf2 = some r' ∧
    r.inbuf = [] ∧ Out.line printStopped ∈ r.outs ∧
    r'.inbuf = [] ∧ Out.line streamStopped ∈ r'.outs ∧
    loopStep ⟨100 :: buf, chunks⟩ = some (⟨r.inbuf, r.rest⟩, r.outs) ∧
    loopStep ⟨108 :: buf, chunks⟩ = some (⟨r'.inbuf, r'.rest⟩, r'.outs) := by
  have hpfacts : r.inbuf = [] ∧ Out.line printStopped ∈ r.outs := by
    unfold print_samples_continuously at hp
    cases hc : contGo emitPrint chunks [] with
    | none => rw [hc] at hp; cases hp
    | some r0 =>
      rw [hc] at hp
      simp only [Option.some.injEq] at hp
      subst hp
      exact ⟨rfl, by simp⟩
  have hsfacts : r'.inbuf = [] ∧ Out.line streamStopped ∈ r'.outs := by
    unfold stream_audio_continuously at hs
    cases hc : contGo emitStream chunks [] with
    | none => rw [hc] at hs; cases hs
    | some r0 =>
      rw [hc] at hs
      simp only [Option.some.injEq] at hs
      subst hs
      exact ⟨rfl, by simp⟩
  refine ⟨hp, hs, hpfacts.1, hpfacts.2, hsfacts.1, hsfacts.2, ?_, ?_⟩
  · simp [loopStep, hp]
  · simp [loopStep, hs]

/-- Chunk stream for the C4 witness: one good read, a stop byte arriving
during it. -/
def c4wChunks : List Chunk := [⟨true, [4], [0]⟩]

/-- Result of the C4 witness print run. -/
def c4wPrintRes : ModeRes :=
  ⟨1, [Out.line printBanner, Out.sample 4, Out.line printStopped, Out.line printMenu], [], []⟩

/-- Result of the C4 witness stream run. -/
def c4wStreamRes : ModeRes :=
  ⟨1, [Out.line streamBanner, Out.raw 2, Out.line streamStopped, Out.line streamMenu], [], []⟩

/-- Witness for C4 at a concrete one-block run of each continuous mode. -/
theorem c4_discard_then_drain_status_witness :
    print_samples_continuously c4wChunks [1, 2] = some c4wPrintRes ∧
    stream_audio_continuously c4wChunks [1, 2] = some c4wStreamRes ∧
    c4wPrintRes.inbuf = [] ∧ Out.line printStopped ∈ c4wPrintRes.outs ∧
    c4wStreamRes.inbuf = [] ∧ Out.line streamStopped ∈ c4wStreamRes.outs ∧
    loopStep ⟨100 :: [9], c4wChunks⟩ = some (⟨c4wPrintRes.inbuf, c4wPrintRes.rest⟩, c4wPrintRes.outs) ∧
    loopStep ⟨108 :: [9], c4wChunks⟩ = some (⟨c4wStreamRes.inbuf, c4wStreamRes.rest⟩, c4wStreamRes.outs) :=
  c4_discard_then_drain_status c4wChunks [9] [1, 2] c4wPrintRes c4wStreamRes (by decide) (by decide)

/-- Claim C5: if i2s_driver_install or i2s_set_pin returns a non-ESP_OK
status, exactly one diagnostic is reported, no audio-mode output is ever
produced, and the system halts: for any number of loop steps the state —
including any buffered commands — is untouched, so no mode is entered, no
command dispatched, and nothing is retried. -/
theorem c5_setup_failure_halts (installErr setPinErr : Int) (steps : Nat) (s : SysState)
    (h : installErr ≠ ESP_OK ∨ setPinErr ≠ ESP_OK) :
    ∃ outs : List Out, firmwareRun installErr setPinErr steps s = some (outs, s) ∧
      diagCount outs = 1 ∧ outs.all (fun o => !isModeOut o) = true := by
  by_cases hi : installErr = ESP_OK
  · have hp : setPinErr ≠ ESP_OK := by
      cases h with
      | inl h1 => exact absurd hi h1
      | inr h2 => exact h2
    refine ⟨setupBanner ++ [Out.diag setPinErr], ?_, ?_, ?_⟩
    · simp [firmwareRun, setupModel, hi, hp]
    · simp [diagCount, setupBanner]
    · simp [setupBanner, isModeOut]
  · refine ⟨setupBanner ++ [Out.diag installErr], ?_, ?_, ?_⟩
    · simp [firmwareRun, setupModel, hi]
    · simp [diagCount, setupBanner]
    · simp [setupBanner, isModeOut]

/-- Witness for C5: a failing driver install (status 261) with a buffered
command and chunks available; the command is never dispatched. -/
theorem c5_setup_failure_halts_witness :
    ∃ outs : List Out,
      firmwareRun 261 0 3 ⟨[114], [⟨true, [1], []⟩]⟩ = some (outs, ⟨[114], [⟨true, [1], []⟩]⟩) ∧
      diagCount outs = 1 ∧ outs.all (fun o => !isModeOut o) = true :=
  c5_setup_failure_halts 261 0 3 ⟨[114], [⟨true, [1], []⟩]⟩ (Or.inl (by decide))

/-- Claim C6: a loop iteration whose acquisition call fails (non-ESP_OK
status) or returns zero bytes forwards nothing, accumulates no progress,
does not abort the mode and surfaces no error: the recording loop continues
exactly as if the iteration had not happened, and each continuous-mode loop
emits nothing for it and retries on the remaining stream (one extra loop
iteration, same outputs, same remainder). -/
theorem c6_transient_read_skipped (c : Chunk) (cs : List Chunk) (total : Nat) (buf : List Nat)
    (hbad : c.ok = false ∨ c.frames = []) (harr : c.arrived = [])
    (htot : total < RECORD_BUFFER_SIZE) :
    recordGo total buf (c :: cs) = recordGo total buf cs ∧
    contGo emitPrint (c :: cs) [] =
      (contGo emitPrint cs []).map (fun r => ⟨r.blocks + 1, r.outs, r.rest⟩) ∧
    contGo emitStream (c :: cs) [] =
      (contGo emitStream cs []).map (fun r => ⟨r.blocks + 1, r.outs, r.rest⟩) := by
  have hcond : ¬(c.ok = true ∧ 0 < c.frames.length) := by
    cases hbad with
    | inl h1 => intro hc; rw [h1] at hc; exact Bool.false_ne_true hc.1
    | inr h2 => intro hc; rw [h2] at hc; simp at hc
  refine ⟨?_, ?_, ?_⟩
  · simp only [recordGo]
    rw [if_neg (by omega), if_neg hcond, harr, List.append_nil]
  · cases hc : contGo emitPrint cs [] with
    | none => simp [contGo, harr, hc]
    | some r0 => simp [contGo, harr, hc, emitPrint, hcond]
  · cases hc : contGo emitStream cs [] with
    | none => simp [contGo, harr, hc]
    | some r0 => simp [contGo, harr, hc, emitStream, hcond]

/-- Witness for C6: a failed read in front of one good read. -/
theorem c6_transient_read_skipped_witness :
    recordGo 7 [3] (⟨false, [], []⟩ :: [⟨true, [4], [9]⟩]) = recordGo 7 [3] [⟨true, [4], [9]⟩] ∧
    contGo emitPrint (⟨false, [], []⟩ :: [⟨true, [4], [9]⟩]) [] =
      (contGo emitPrint [⟨true, [4], [9]⟩] []).map (fun r => ⟨r.blocks + 1, r.outs, r.rest⟩) ∧
    contGo emitStream (⟨false, [], []⟩ :: [⟨true, [4], [9]⟩]) [] =
      (contGo emitStream [⟨true, [4], [9]⟩] []).map (fun r => ⟨r.blocks + 1, r.outs, r.rest⟩) :=
  c6_transient_read_skipped ⟨false, [], []⟩ [⟨true, [4], [9]⟩] 7 [3] (Or.inl rfl) rfl (by decide)

/-- Claim C7 is false as stated: two sequential complete Recording sessions
(two buffered r commands dispatched by loop()) forward different byte
totals when the Acquisition Source partitions the two sessions differently —
161792 bytes for full 2048-byte blocks, 160000 bytes for 2000-byte blocks. -/
theorem c7_identical_lengths_cex :
    (record_audio c7Chunks []).map RecRes.total = some 161792 ∧
    ((record_audio c7Chunks []).bind fun r1 =>
      (record_audio r1.rest r1.inbuf).map RecRes.total) = some 160000 ∧
    (loopRun 2 ⟨[114, 114], c7Chunks⟩).map Prod.fst = some ⟨[], []⟩ ∧
    (161792 : Nat) ≠ 160000 := by
  refine ⟨by decide, by decide, by decide, by decide⟩

/-- Claim C7 (amended): every completed Recording session forwards a byte
total in [160000, 160000 + 2048); sessions whose chunk streams agree on
status flags and block sizes forward identical totals, so N sequential r
commands produce N identical-length recordings whenever the source delivers
the same block-size sequence each time. -/
theorem c7_idempotent_amended (ch1 ch2 : List Chunk) (b1 b2 : List Nat) (r1 r2 : RecRes)
    (hsz : ∀ c ∈ ch1, 2 * c.frames.length ≤ I2S_BUFFER_BYTES)
    (h1 : record_audio ch1 b1 = some r1) (h2 : record_audio ch2 b2 = some r2)
    (hsame : ch1.map sizeKey = ch2.map sizeKey) :
    r1.total = r2.total ∧ RECORD_BUFFER_SIZE ≤ r1.total ∧
    r1.total < RECORD_BUFFER_SIZE + I2S_BUFFER_BYTES := by
  unfold record_audio at h1 h2
  cases hr1 : recordGo 0 b1 ch1 with
  | none => rw [hr1] at h1; cases h1
  | some s1 =>
    cases hr2 : recordGo 0 b2 ch2 with
    | none => rw [hr2] at h2; cases h2
    | some s2 =>
      rw [hr1] at h1
      rw [hr2] at h2
      simp only [Option.some.injEq] at h1 h2
      subst h1
      subst h2
      have hcongr := recordGo_total_congr ch1 ch2 0 b1 b2 hsame
      rw [hr1, hr2] at hcongr
      simp only [Option.map_some'] at hcongr
      refine ⟨by simpa using hcongr, ?_, ?_⟩
      · simpa using recordGo_budget_le _ _ _ _ hr1
      · simpa using recordGo_total_lt _ _ _ _ hsz (by decide) hr1

/-- Witness for the amended C7: two sessions fed the same 2000-byte block
sequence, entered with different control buffers, forward the same total. -/
theorem c7_idempotent_amended_witness :
    recResEven.total = recResEvenBuf.total ∧ RECORD_BUFFER_SIZE ≤ recResEven.total ∧
    recResEven.total < RECORD_BUFFER_SIZE + I2S_BUFFER_BYTES :=
  c7_idempotent_amended (List.replicate 80 chunkEven) (List.replicate 80 chunkEven) [] [7]
    recResEven recResEvenBuf (by decide) (by decide) (by decide) rfl

/-- Claim C8: a Recording session is never cancelled mid-session: every
completed run reached the full byte budget, and the run is unaffected by
control-channel input — for any other initial control buffer the loop
consumes the same chunks, forwards the same bytes and returns the same
total, with arriving bytes merely accumulating in the buffer. -/
theorem c8_recording_never_cancelled (total : Nat) (buf buf2 : List Nat)
    (chunks : List Chunk) (r : RecRes)
    (h : recordGo total buf chunks = some r) :
    RECORD_BUFFER_SIZE ≤ r.total ∧
    ∃ arr : List Nat, r.inbuf = buf ++ arr ∧
      recordGo total buf2 chunks = some ⟨r.total, r.outs, buf2 ++ arr, r.rest⟩ := by
  obtain ⟨consumed, hsplit, hin, hall⟩ := recordGo_shape chunks total buf r h
  exact ⟨recordGo_budget_le _ _ _ _ h, (consumed.map Chunk.arrived).flatten, hin, hall buf2⟩

/-- Witness for C8: a one-read recording tail during which the byte 2
arrives; the run is identical when entered with buffer 8 instead of 5. -/
theorem c8_recording_never_cancelled_witness :
    RECORD_BUFFER_SIZE ≤ recResTiny.total ∧
    ∃ arr : List Nat, recResTiny.inbuf = [5] ++ arr ∧
      recordGo 159999 [8] [⟨true, [3], [2]⟩] =
        some ⟨recResTiny.total, recResTiny.outs, [8] ++ arr, recResTiny.rest⟩ :=
  c8_recording_never_cancelled 159999 [5] [8] [⟨true, [3], [2]⟩] recResTiny (by decide)

/-- Claim C9: for every completed Recording session whose blocks each fit in
the 2048-byte acquisition buffer, the bytes forwarded to the Output Sink are
at least the 160000-byte budget and strictly less than budget + 2048: the
last block is forwarded whole, so the overshoot is bounded by one block. -/
theorem c9_overshoot_bounded (chunks : List Chunk) (buf : List Nat) (r : RecRes)
    (hsz : ∀ c ∈ chunks, c.frames.length ≤ I2S_BUFFER_SIZE)
    (h : record_audio chunks buf = some r) :
    RECORD_BUFFER_SIZE ≤ r.total ∧ r.total < RECORD_BUFFER_SIZE + I2S_BUFFER_BYTES := by
  unfold record_audio at h
  cases hrec : recordGo 0 buf chunks with
  | none => rw [hrec] at h; cases h
  | some r0 =>
    rw [hrec] at h
    simp only [Option.some.injEq] at h
    subst h
    have hsz2 : ∀ c ∈ chunks, 2 * c.frames.length ≤ I2S_BUFFER_BYTES := by
      intro c hc
      have := hsz c hc
      simp only [I2S_BUFFER_BYTES]
      omega
    exact ⟨by simpa using recordGo_budget_le _ _ _ _ hrec,
      by simpa using recordGo_total_lt _ _ _ _ hsz2 (by decide) hrec⟩

/-- Witness for C9: full 2048-byte blocks give 161792 bytes, inside the
bound. -/
theorem c9_overshoot_bounded_witness :
    RECORD_BUFFER_SIZE ≤ recResFull.total ∧
    recResFull.total < RECORD_BUFFER_SIZE + I2S_BUFFER_BYTES :=
  c9_overshoot_bounded (List.replicate 79 chunkFull) [] recResFull (by decide) (by decide)

/-- Claim C10: a Recording session neither reads nor discards control bytes:
on return the control buffer is the initial buffer followed by every byte
that arrived during the consumed reads, and the outer loop dispatches the r
command into exactly this run, leaving those bytes as the next commands. -/
theorem c10_recording_preserves_control_bytes (chunks : List Chunk) (buf : List Nat) (r : RecRes)
    (h : record_audio chunks buf = some r) :
    (∃ consumed : List Chunk, chunks = consumed ++ r.rest ∧
      r.inbuf = buf ++ (consumed.map Chunk.arrived).flatten) ∧
    loopStep ⟨114 :: buf, chunks⟩ = some (⟨r.inbuf, r.rest⟩, r.outs) := by
  constructor
  · unfold record_audio at h
    cases hrec : recordGo 0 buf chunks with
    | none => rw [hrec] at h; cases h
    | some r0 =>
      rw [hrec] at h
      simp only [Option.some.injEq] at h
      subst h
      obtain ⟨consumed, hsplit, hin, _⟩ := recordGo_shape chunks 0 buf r0 hrec
      exact ⟨consumed, by simpa using hsplit, by simpa using hin⟩
  · simp [loopStep, h]

/-- Witness for C10: the byte 100 arrives during each of the 79 reads of a
recording; all 79 bytes are still buffered, in order, when the session
returns. -/
theorem c10_recording_preserves_control_bytes_witness :
    (∃ consumed : List Chunk, List.replicate 79 chunkNotify = consumed ++ recResNotify.rest ∧
      recResNotify.inbuf = [] ++ (consumed.map Chunk.arrived).flatten) ∧
    loopStep ⟨114 :: [], List.replicate 79 chunkNotify⟩ =
      some (⟨recResNotify.inbuf, recResNotify.rest⟩, recResNotify.outs) :=
  c10_recording_preserves_control_bytes (List.replicate 79 chunkNotify) [] recResNotify (by decide)

end Fw
